import Mathlib

/-!
# Verification of the pdfplaca text-fitting and layout core

Shallow embedding of `pdfplaca.cpp` (katahiromz/pdfplaca). Bytes are
naturals below 256, `double` arithmetic is modelled over `ℚ` (the exact
idealisation of the floating-point code), the text-metrics provider
(cairo) is modelled as per-character base metrics that scale linearly
with the font size, as the spec's external contract requires, and the
unbounded `for (;;)` / `while` loops are modelled with explicit fuel
(`none` = the loop has not exited within the given fuel).
-/

namespace PdfPlaca

/-! ## UTF-8 byte layer (`u8_is_lead`, `u8_len`, `u8_split_chars`) -/

/-- Embeds `u8_is_lead`: a byte is a UTF-8 lead byte iff `(ch & 0xC0) != 0x80`. -/
def u8_is_lead (ch : ℕ) : Bool := (ch &&& 0xC0) != 0x80

/-- Embeds `u8_len`: number of lead bytes in the string. -/
def u8_len (str : List ℕ) : ℕ := str.countP (fun b => u8_is_lead b)

/-- Loop of `u8_split_chars`: `s` is the accumulator of the current
character; a lead byte flushes a non-empty accumulator, and every byte is
appended to the accumulator; the final non-empty accumulator is flushed. -/
def u8_split_chars_aux : List ℕ → List ℕ → List (List ℕ)
  | s, [] => if s.isEmpty then [] else [s]
  | s, b :: rest =>
      if u8_is_lead b && !s.isEmpty then
        s :: u8_split_chars_aux [b] rest
      else
        u8_split_chars_aux (s ++ [b]) rest

/-- Embeds `u8_split_chars`: splits a UTF-8 byte string into characters,
one per lead byte. -/
def u8_split_chars (str : List ℕ) : List (List ℕ) := u8_split_chars_aux [] str

/-! ## Escaping (`mstr_escape`, `mstr_unescape`)

Byte values: tab 9, newline 10, carriage return 13, form feed 12,
backslash 92, and the letters `t` 116, `n` 110, `r` 114, `f` 102. -/

/-- Embeds the `switch` body of `mstr_escape` for one byte. -/
def escape_one (c : ℕ) : List ℕ :=
  if c = 9 then [92, 116]
  else if c = 10 then [92, 110]
  else if c = 13 then [92, 114]
  else if c = 12 then [92, 102]
  else if c = 92 then [92, 92]
  else [c]

/-- Embeds `mstr_escape`: escapes tab, newline, CR, FF and backslash. -/
def mstr_escape : List ℕ → List ℕ
  | [] => []
  | c :: rest => escape_one c ++ mstr_escape rest

/-- Embeds the `switch` body of `mstr_unescape` for the byte after a
backslash. -/
def unescape_one (c : ℕ) : ℕ :=
  if c = 116 then 9
  else if c = 110 then 10
  else if c = 114 then 13
  else if c = 102 then 12
  else c

/-- Loop of `mstr_unescape`; the `Bool` is the `escaping` flag. A
backslash that is the last byte of the string is emitted literally (the
`ich + 1 == text.size()` branch of the source). -/
def mstr_unescape_aux : Bool → List ℕ → List ℕ
  | _, [] => []
  | true, c :: rest => unescape_one c :: mstr_unescape_aux false rest
  | false, c :: rest =>
      if c = 92 then
        if rest.isEmpty then [92] else mstr_unescape_aux true rest
      else
        c :: mstr_unescape_aux false rest

/-- Embeds `mstr_unescape`. -/
def mstr_unescape (text : List ℕ) : List ℕ := mstr_unescape_aux false text

/-! ## Text metrics

The metrics provider is external (cairo). Per the spec's external
contract it is deterministic and scales continuously with the font size;
for cairo's scalable fonts glyph extents are linear in the size, so a
character is modelled by its extents per unit of font size, and measuring
at size `fs` multiplies by `fs`. -/

/-- Glyph extents of one character per unit of font size
(`cairo_text_extents_t` fields used by the fit solvers). -/
structure CharMetrics where
  width : ℚ
  height : ℚ
  xAdvance : ℚ
deriving DecidableEq

/-- Accumulating loop of `pdf_get_h_text_width_and_height`: per character
the running height is raised to the glyph height and then to the font
height, and the glyph advance is added to the running width. -/
def hMeasureAux (fontHeight fs : ℚ) : List CharMetrics → ℚ × ℚ → ℚ × ℚ
  | [], acc => acc
  | c :: rest, acc =>
      hMeasureAux fontHeight fs rest
        (acc.1 + c.xAdvance * fs, max (max acc.2 (c.height * fs)) (fontHeight * fs))

/-- Embeds `pdf_get_h_text_width_and_height` at font size `fs`:
`(text_width, text_height)`. -/
def pdf_get_h_text_width_and_height (fontHeight : ℚ) (chars : List CharMetrics)
    (fs : ℚ) : ℚ × ℚ :=
  hMeasureAux fontHeight fs chars (0, 0)

/-! ## Horizontal fit solver (`pdf_scaling_h_text`) -/

/-- Result of a fit solver call: `fail` embeds `return false`. -/
inductive FitOutcome where
  | fail : FitOutcome
  | ok (fontSize scaleX scaleY : ℚ) : FitOutcome
deriving DecidableEq

/-- The `for (;;)` search loop of `pdf_scaling_h_text`.

The source declares `cairo_text_extents_t extents;` and never writes it,
yet tests `!extents.width || !extents.height` each iteration: the C++
reads indeterminate stack memory. The embedding exposes that
indeterminate value as the parameters `junkW`, `junkH` (one fixed value
per call, matching the single untouched stack slot).

`none` means the loop has not exited within `fuel` iterations;
`some none` embeds `return false`; `some (some (fs, sx, sy))` embeds
reaching `break` with that state. -/
def hFitLoop (fontHeight : ℚ) (chars : List CharMetrics)
    (w h threshold junkW junkH : ℚ) :
    ℕ → ℚ → ℚ → ℚ → Option (Option (ℚ × ℚ × ℚ))
  | 0, _, _, _ => none
  | fuel + 1, fs, sx, sy =>
      let m := pdf_get_h_text_width_and_height fontHeight chars fs
      if 10000 ≤ fs ∨ junkW = 0 ∨ junkH = 0 then some none
      else if m.1 * sx < w * (9 / 10) ∧ m.2 * sy < h * (9 / 10) then
        hFitLoop fontHeight chars w h threshold junkW junkH fuel (fs * (11 / 10)) sx sy
      else if threshold < 11 / 10 then some (some (fs, sx, sy))
      else if m.1 * sx < w * (9 / 10) then
        hFitLoop fontHeight chars w h threshold junkW junkH fuel fs (sx * (11 / 10)) sy
      else if m.2 * sy < h * (9 / 10) then
        hFitLoop fontHeight chars w h threshold junkW junkH fuel fs sx (sy * (11 / 10))
      else some (some (fs, sx, sy))

/-- The aspect-ratio correction at the end of `pdf_scaling_h_text`: two
consecutive `if`s; the second one reads the `scale_x` already updated by
the first. `len` is `u8_len(text)`, the character count of the row. -/
def hAspectCorrect (tw th : ℚ) (len : ℕ) (threshold sx sy : ℚ) : ℚ × ℚ :=
  let sx' := if threshold < (tw * sx / (len : ℚ)) / (th * sy) then
      threshold * (th * sy) * (len : ℚ) / tw
    else sx
  let sy' := if threshold < (th * sy) / (tw * sx' / (len : ℚ)) then
      threshold * (tw * sx' / (len : ℚ)) / th
    else sy
  (sx', sy')

/-- Embeds `pdf_scaling_h_text`. A row is given by its characters' base
metrics (for well-formed UTF-8 the `u8_len` the source divides by equals
the number of split characters, `chars.length`). `junkW`, `junkH` are the
indeterminate `extents` fields read by the loop's failure test. -/
def pdf_scaling_h_text (fontHeight : ℚ) (chars : List CharMetrics)
    (w h threshold junkW junkH : ℚ) (fuel : ℕ) : Option FitOutcome :=
  if chars = [] then some .fail
  else
    match hFitLoop fontHeight chars w h threshold junkW junkH fuel 10 1 1 with
    | none => none
    | some none => some .fail
    | some (some (fs, sx, sy)) =>
        let m := pdf_get_h_text_width_and_height fontHeight chars fs
        let p := hAspectCorrect m.1 m.2 chars.length threshold sx sy
        some (.ok fs p.1 p.2)

/-- The proposition that both aspect-correction assignments of
`pdf_scaling_h_text` execute in one solve: the first condition holds, and
the second condition holds after `scale_x` has been replaced by
`threshold * (text_height * scale_y) * len / text_width`. -/
def hBothShrink (tw th : ℚ) (len : ℕ) (threshold sx sy : ℚ) : Prop :=
  threshold < (tw * sx / (len : ℚ)) / (th * sy) ∧
  threshold < (th * sy) / (tw * (threshold * (th * sy) * (len : ℚ) / tw) / (len : ℚ))

/-! ## Vertical fit solver (`pdf_scaling_v_text`) and the gap loop -/

/-- Typographic category of a character, decided in the source by the
`u8_is_space` / `u8_is_small_kana` / `u8_is_hyphen_dash` /
`u8_is_paren_type_1/2/3` / `u8_is_comma_period` membership tests. -/
inductive CharCategory where
  | space | smallKana | hyphenDash | paren1 | paren2 | paren3 | commaPeriod | other
deriving DecidableEq

/-- A character as the vertical-mode code sees it: its category together
with its extents per unit of font size. -/
structure VChar where
  cat : CharCategory
  width : ℚ
  height : ℚ
  xAdvance : ℚ
deriving DecidableEq

/-- Per-character step of `pdf_get_v_text_width_and_height`: spaces use
the x-advance as vertical extent, small kana shrink by the 0.55 factor,
dashes and all three paren types use swapped width/height, everything
else (comma/period included: the measuring code has no branch for them)
uses the raw extents. -/
def vMeasureStep (fs : ℚ) (acc : ℚ × ℚ) (c : VChar) : ℚ × ℚ :=
  match c.cat with
  | .space => (max acc.1 (c.width * fs), acc.2 + c.xAdvance * fs)
  | .smallKana =>
      (max acc.1 (c.width * fs * (11 / 20)), acc.2 + c.height * fs * (11 / 20))
  | .hyphenDash => (max acc.1 (c.height * fs), acc.2 + c.width * fs)
  | .paren1 => (max acc.1 (c.height * fs), acc.2 + c.width * fs)
  | .paren2 => (max acc.1 (c.height * fs), acc.2 + c.width * fs)
  | .paren3 => (max acc.1 (c.height * fs), acc.2 + c.width * fs)
  | _ => (max acc.1 (c.width * fs), acc.2 + c.height * fs)

/-- Accumulating loop of `pdf_get_v_text_width_and_height`. -/
def vMeasureAux (fs : ℚ) : List VChar → ℚ × ℚ → ℚ × ℚ
  | [], acc => acc
  | c :: rest, acc => vMeasureAux fs rest (vMeasureStep fs acc c)

/-- Embeds `pdf_get_v_text_width_and_height` at font size `fs`. -/
def pdf_get_v_text_width_and_height (chars : List VChar) (fs : ℚ) : ℚ × ℚ :=
  vMeasureAux fs chars (0, 0)

/-- The `for (;;)` search loop of `pdf_scaling_v_text`: multiplicative
step 1.05, fill threshold 0.95, and — unlike the horizontal loop — the
degenerate-metrics test really reads the measured `text_width` and
`text_height`. -/
def vFitLoop (chars : List VChar) (w h threshold : ℚ) :
    ℕ → ℚ → ℚ → ℚ → Option (Option (ℚ × ℚ × ℚ))
  | 0, _, _, _ => none
  | fuel + 1, fs, sx, sy =>
      let m := pdf_get_v_text_width_and_height chars fs
      if 10000 ≤ fs ∨ m.1 = 0 ∨ m.2 = 0 then some none
      else if m.1 * sx < w * (19 / 20) ∧ m.2 * sy < h * (19 / 20) then
        vFitLoop chars w h threshold fuel (fs * (21 / 20)) sx sy
      else if threshold < 11 / 10 then some (some (fs, sx, sy))
      else if m.1 * sx < w * (19 / 20) then
        vFitLoop chars w h threshold fuel fs (sx * (21 / 20)) sy
      else if m.2 * sy < h * (19 / 20) then
        vFitLoop chars w h threshold fuel fs sx (sy * (21 / 20))
      else some (some (fs, sx, sy))

/-- The aspect-ratio correction of `pdf_scaling_v_text`: a single
`if / else-if`, dividing the height side by the character count `len`. -/
def vAspectCorrect (tw th : ℚ) (len : ℕ) (threshold sx sy : ℚ) : ℚ × ℚ :=
  if threshold < (tw * sx) / (th * sy / (len : ℚ)) then
    (threshold * (th * sy / (len : ℚ)) / tw, sy)
  else if threshold < (th * sy / (len : ℚ)) / (tw * sx) then
    (sx, threshold * (tw * sx) * (len : ℚ) / th)
  else (sx, sy)

/-- Embeds `pdf_scaling_v_text` (here `len` is `chars.size()`). -/
def pdf_scaling_v_text (chars : List VChar) (w h threshold : ℚ)
    (fuel : ℕ) : Option FitOutcome :=
  if chars = [] then some .fail
  else
    match vFitLoop chars w h threshold fuel 10 1 1 with
    | none => none
    | some none => some .fail
    | some (some (fs, sx, sy)) =>
        let m := pdf_get_v_text_width_and_height chars fs
        let p := vAspectCorrect m.1 m.2 chars.length threshold sx sy
        some (.ok fs p.1 p.2)

/-- The post-fit gap-adjustment `while` loop of `pdf_draw_v_text`: while
the inter-character blank gap `(height - text_height * scale_y) /
(chars.size() + 1)` is below `font_size / 5`, both scale factors shrink
by 5% and the column is re-measured (the font size is unchanged, so the
re-measured raw height is the same value). Returns the final
`(scale_x, scale_y, each_blank_height)`, or `none` if the loop has not
exited within `fuel` iterations.

The model is exact ℚ, so it ignores IEEE-double rounding; in the source,
once `text_height` shrinks below one ulp of `height` the subtraction
absorbs and the computed gap saturates at `height/(n+1)` exactly.
Conclusions about the source are therefore drawn only at inputs where
the gap comparison carries slack far larger than any double rounding
error, so the exact and the rounded loop take the same branches. -/
def vGapLoop (chars : List VChar) (h fs : ℚ) : ℕ → ℚ → ℚ → Option (ℚ × ℚ × ℚ)
  | 0, _, _ => none
  | fuel + 1, sx, sy =>
      let th := (pdf_get_v_text_width_and_height chars fs).2 * sy
      let gap := (h - th) / ((chars.length : ℚ) + 1)
      if gap < fs / 5 then
        vGapLoop chars h fs fuel (sx * (19 / 20)) (sy * (19 / 20))
      else some (sx, sy, gap)

/-- The gap-adjustment loop runs forever from the given state: no fuel
bound makes it exit. -/
def vGapDiverges (chars : List VChar) (h fs sx sy : ℚ) : Prop :=
  ∀ fuel, vGapLoop chars h fs fuel sx sy = none

/-! ## Letter-count-per-page chunking (`pdfplaca_do_it`) -/

/-- One page of the letters-per-page mode: the inner loop of
`pdfplaca_do_it` visits the indices `iPage*k ≤ iChar < (iPage+1)*k` and
appends `chars[iChar]` whenever `iChar < chars.size()`. -/
def pdfplaca_page_chars (chars : List (List ℕ)) (k i : ℕ) : List (List ℕ) :=
  (List.range' (i * k) k).filterMap fun j => chars.get? j

/-- The pages emitted by the letters-per-page mode:
`num_page = (chars.size() + k - 1) / k` pages, built in order. -/
def pdfplaca_pages (chars : List (List ℕ)) (k : ℕ) : List (List (List ℕ)) :=
  (List.range ((chars.length + k - 1) / k)).map (pdfplaca_page_chars chars k)

/-! ## Character splitting: concatenation invariant -/

/-- The splitting loop only redistributes bytes: flattening its output
yields the accumulator followed by the remaining input. -/
theorem u8_split_chars_aux_flatten :
    ∀ (str s : List ℕ), (u8_split_chars_aux s str).flatten = s ++ str := by
  intro str
  induction str with
  | nil =>
      intro s
      cases s <;> simp [u8_split_chars_aux]
  | cons b rest ih =>
      intro s
      by_cases hc : (u8_is_lead b && !s.isEmpty) = true
      · simp [u8_split_chars_aux, hc, ih]
      · simp [u8_split_chars_aux, hc, ih]

/-- Claim C10: for every input byte string, including malformed UTF-8,
concatenating the characters produced by `u8_split_chars` in order yields
exactly the original byte string — splitting never drops, duplicates, or
reorders bytes. -/
theorem C10_split_concat (str : List ℕ) : (u8_split_chars str).flatten = str := by
  simpa [u8_split_chars] using u8_split_chars_aux_flatten str []

/-- Claim C8: `u8_split_chars` partitions UTF-8 text at lead bytes, so
the byte strings of the literals from the source's static assertions
split into exactly 7, 1 and 2 characters respectively. -/
theorem C8_split_counts :
    (u8_split_chars [0x61, 0x62, 0xE3, 0x81, 0x82, 0xE3, 0x81, 0x84, 0xE3, 0x81, 0x86,
        0xE6, 0xBC, 0xA2, 0xE5, 0xAD, 0x97]).length = 7 ∧
    (u8_split_chars [0xF0, 0xA0, 0xAE, 0xB7]).length = 1 ∧
    (u8_split_chars [0xF0, 0x9F, 0x98, 0x83, 0xF0, 0x9F, 0x98, 0x83]).length = 2 := by
  decide

/-! ## Escape round trip -/

/-- Unescaping an escaped string, for strings free of raw control bytes:
the escaping pass only doubles backslashes and the unescaping state
machine undoes exactly that. -/
theorem mstr_unescape_aux_escape :
    ∀ (s : List ℕ), (∀ c ∈ s, c ≠ 9 ∧ c ≠ 10 ∧ c ≠ 13 ∧ c ≠ 12) →
      mstr_unescape_aux false (mstr_escape s) = s := by
  intro s
  induction s with
  | nil => intro; rfl
  | cons c rest ih =>
      intro hall
      obtain ⟨h9, h10, h13, h12⟩ := hall c (List.mem_cons_self c rest)
      have hrest := ih fun x hx => hall x (List.mem_cons_of_mem c hx)
      by_cases hc : c = 92
      · subst hc
        simp [mstr_escape, escape_one, mstr_unescape_aux, unescape_one, hrest]
      · simp [mstr_escape, escape_one, h9, h10, h13, h12, hc, mstr_unescape_aux, hrest]

/-- Claim C9: for every byte string `s` that contains no raw control
characters (no literal tab, newline, carriage return or form feed),
`mstr_unescape (mstr_escape s) = s`. -/
theorem C9_escape_round_trip (s : List ℕ)
    (h : ∀ c ∈ s, c ≠ 9 ∧ c ≠ 10 ∧ c ≠ 13 ∧ c ≠ 12) :
    mstr_unescape (mstr_escape s) = s :=
  mstr_unescape_aux_escape s h

/-- Witness for C9 at the concrete string `a\n` (bytes 97, 92, 110). -/
theorem C9_escape_round_trip_witness :
    (∀ c ∈ [97, 92, 110], c ≠ 9 ∧ c ≠ 10 ∧ c ≠ 13 ∧ c ≠ 12) ∧
    mstr_unescape (mstr_escape [97, 92, 110]) = [97, 92, 110] :=
  ⟨by decide, C9_escape_round_trip [97, 92, 110] (by decide)⟩

/-! ## Letter-count page chunking -/

/-- The index-guarded page loop collects exactly the slice
`chars[i*k ..< i*k + k]`. -/
theorem pdfplaca_page_chars_eq (chars : List (List ℕ)) :
    ∀ (t s : ℕ), (List.range' s t).filterMap (fun j => chars.get? j)
      = (chars.drop s).take t := by
  intro t
  induction t with
  | zero => intro s; simp
  | succ n ih =>
      intro s
      rw [List.range'_succ]
      cases hg : chars.get? s with
      | none =>
          have hlen : chars.length ≤ s := List.get?_eq_none.mp hg
          have h1 : chars.drop s = [] := List.drop_eq_nil_of_le hlen
          have h2 : chars.drop (s + 1) = [] :=
            List.drop_eq_nil_of_le (le_trans hlen (Nat.le_succ s))
          simp only [List.filterMap_cons, hg, ih (s + 1), h1, h2, List.take_nil]
      | some a =>
          obtain ⟨hlt, hget⟩ := List.get?_eq_some.mp hg
          have hdrop : chars.drop s = chars[s] :: chars.drop (s + 1) :=
            List.drop_eq_getElem_cons hlt
          have ha : chars[s] = a := by
            rw [← hget, List.get_eq_getElem]
          simp only [List.filterMap_cons, hg, ih (s + 1), hdrop, ha,
            List.take_succ_cons]

/-- Flattening `m` consecutive `k`-slices of a list of length at most
`m * k` reassembles the list. -/
theorem flatten_take_drop_chunks (k : ℕ) :
    ∀ (m : ℕ) (l : List (List ℕ)), l.length ≤ m * k →
      ((List.range m).map (fun i => (l.drop (i * k)).take k)).flatten = l := by
  intro m
  induction m with
  | zero =>
      intro l hl
      simp only [Nat.zero_mul, Nat.le_zero, List.length_eq_zero] at hl
      simp [hl]
  | succ n ih =>
      intro l hl
      rw [List.range_succ_eq_map, List.map_cons, List.flatten_cons]
      have hmap : List.map ((fun i => (l.drop (i * k)).take k) ∘ Nat.succ) (List.range n)
          = List.map (fun i => ((l.drop k).drop (i * k)).take k) (List.range n) := by
        refine List.map_congr_left fun i _ => ?_
        show (l.drop (Nat.succ i * k)).take k = ((l.drop k).drop (i * k)).take k
        rw [List.drop_drop]
        congr 1
        rw [Nat.succ_mul, Nat.add_comm]
      have hlen : (l.drop k).length ≤ n * k := by
        rw [List.length_drop]
        have hl' : l.length ≤ n * k + k := by
          have hexp : (n + 1) * k = n * k + k := by ring
          rw [hexp] at hl
          exact hl
        omega
      rw [Nat.zero_mul, List.drop_zero, List.map_map, hmap, ih (l.drop k) hlen]
      exact List.take_append_drop k l

/-- The `num_page` formula of the source is the ceiling of `n / k`. -/
theorem num_page_eq_ceil (n k : ℕ) (hk : 0 < k) :
    (((n + k - 1) / k : ℕ) : ℤ) = ⌈(n : ℚ) / (k : ℚ)⌉ := by
  have hmod := Nat.div_add_mod (n + k - 1) k
  have hlt : (n + k - 1) % k < k := Nat.mod_lt _ hk
  set m : ℕ := (n + k - 1) / k with hm
  have h1 : n ≤ k * m := by omega
  have h2 : k * m + 1 ≤ n + k := by omega
  have hkq : (0 : ℚ) < (k : ℚ) := by exact_mod_cast hk
  have h1q : (n : ℚ) ≤ (k : ℚ) * (m : ℚ) := by exact_mod_cast h1
  have h2q : (k : ℚ) * (m : ℚ) + 1 ≤ (n : ℚ) + (k : ℚ) := by exact_mod_cast h2
  symm
  rw [Int.ceil_eq_iff]
  constructor
  · rw [lt_div_iff₀ hkq]
    push_cast
    nlinarith [h1q, h2q]
  · rw [div_le_iff₀ hkq]
    push_cast
    nlinarith [h1q, h2q]

/-- Claim C7: in letter-count-per-page mode with `lettersPerPage = k > 0`,
the whitespace-stripped document splits into characters, and those are
emitted as exactly `⌈n / k⌉` pages whose characters, concatenated in
order, reproduce the stripped document's character sequence exactly. -/
theorem C7_page_chunking (stripped : List ℕ) (k : ℕ) (hk : 0 < k) :
    (((pdfplaca_pages (u8_split_chars stripped) k).length : ℕ) : ℤ)
        = ⌈((u8_split_chars stripped).length : ℚ) / (k : ℚ)⌉ ∧
    (pdfplaca_pages (u8_split_chars stripped) k).flatten = u8_split_chars stripped := by
  set chars := u8_split_chars stripped with hchars
  have hlen : (pdfplaca_pages chars k).length = (chars.length + k - 1) / k := by
    simp [pdfplaca_pages]
  constructor
  · rw [hlen]
    exact num_page_eq_ceil chars.length k hk
  · have hpage : ∀ i, pdfplaca_page_chars chars k i = (chars.drop (i * k)).take k :=
      fun i => pdfplaca_page_chars_eq chars k (i * k)
    have hmk : chars.length ≤ ((chars.length + k - 1) / k) * k := by
      have hmod := Nat.div_add_mod (chars.length + k - 1) k
      have hlt : (chars.length + k - 1) % k < k := Nat.mod_lt _ hk
      have hcomm : ((chars.length + k - 1) / k) * k = k * ((chars.length + k - 1) / k) :=
        Nat.mul_comm _ _
      omega
    calc (pdfplaca_pages chars k).flatten
        = ((List.range ((chars.length + k - 1) / k)).map
            (fun i => (chars.drop (i * k)).take k)).flatten := by
          unfold pdfplaca_pages
          rw [List.map_congr_left fun i _ => hpage i]
      _ = chars := flatten_take_drop_chunks k _ chars hmk

/-- Witness for C7 at the three-character document `abc` with two letters
per page. -/
theorem C7_page_chunking_witness :
    0 < 2 ∧
    ((((pdfplaca_pages (u8_split_chars [97, 98, 99]) 2).length : ℕ) : ℤ)
        = ⌈((u8_split_chars [97, 98, 99]).length : ℚ) / ((2 : ℕ) : ℚ)⌉ ∧
    (pdfplaca_pages (u8_split_chars [97, 98, 99]) 2).flatten
        = u8_split_chars [97, 98, 99]) :=
  ⟨by decide, C7_page_chunking [97, 98, 99] 2 (by decide)⟩

/-! ## Horizontal measurement: sign facts -/

/-- The accumulated text width only grows along the measuring loop when
advances and the font size are non-negative. -/
theorem hMeasureAux_fst_le (fh fs : ℚ) (hfs : 0 ≤ fs) :
    ∀ (l : List CharMetrics) (acc : ℚ × ℚ), (∀ c ∈ l, 0 ≤ c.xAdvance) →
      acc.1 ≤ (hMeasureAux fh fs l acc).1 := by
  intro l
  induction l with
  | nil => intro acc _; exact le_refl _
  | cons c rest ih =>
      intro acc hadv
      have hc : 0 ≤ c.xAdvance := hadv c (List.mem_cons_self c rest)
      calc acc.1 ≤ acc.1 + c.xAdvance * fs := by nlinarith
        _ ≤ _ := ih _ fun x hx => hadv x (List.mem_cons_of_mem c hx)

/-- The accumulated text height only grows along the measuring loop. -/
theorem hMeasureAux_snd_le (fh fs : ℚ) :
    ∀ (l : List CharMetrics) (acc : ℚ × ℚ), acc.2 ≤ (hMeasureAux fh fs l acc).2 := by
  intro l
  induction l with
  | nil => intro acc; exact le_refl _
  | cons c rest ih =>
      intro acc
      calc acc.2 ≤ max (max acc.2 (c.height * fs)) (fh * fs) :=
            le_trans (le_max_left _ _) (le_max_left _ _)
        _ ≤ _ := ih _

/-- A non-empty row of strictly positive advances measures to a strictly
positive text width at any positive font size. -/
theorem h_measure_width_pos (fh fs : ℚ) (chars : List CharMetrics) (hfs : 0 < fs)
    (hne : chars ≠ []) (hadv : ∀ c ∈ chars, 0 < c.xAdvance) :
    0 < (pdf_get_h_text_width_and_height fh chars fs).1 := by
  cases chars with
  | nil => exact absurd rfl hne
  | cons c rest =>
      have hc : 0 < c.xAdvance := hadv c (List.mem_cons_self c rest)
      have hstep : (0 : ℚ) < ((0 : ℚ) + c.xAdvance * fs) := by nlinarith
      calc (0 : ℚ) < (0 : ℚ) + c.xAdvance * fs := hstep
        _ ≤ (pdf_get_h_text_width_and_height fh (c :: rest) fs).1 :=
          hMeasureAux_fst_le fh fs (le_of_lt hfs) rest _
            (fun x hx => le_of_lt (hadv x (List.mem_cons_of_mem c hx)))

/-- A non-empty row of strictly positive glyph heights measures to a
strictly positive text height at any positive font size. -/
theorem h_measure_height_pos (fh fs : ℚ) (chars : List CharMetrics) (hfs : 0 < fs)
    (hne : chars ≠ []) (hht : ∀ c ∈ chars, 0 < c.height) :
    0 < (pdf_get_h_text_width_and_height fh chars fs).2 := by
  cases chars with
  | nil => exact absurd rfl hne
  | cons c rest =>
      have hc : 0 < c.height := hht c (List.mem_cons_self c rest)
      have hstep : (0 : ℚ) < max (max 0 (c.height * fs)) (fh * fs) := by
        have h1 : (0 : ℚ) < c.height * fs := by nlinarith
        exact lt_of_lt_of_le h1 (le_trans (le_max_right _ _) (le_max_left _ _))
      exact lt_of_lt_of_le hstep (hMeasureAux_snd_le fh fs rest _)

/-! ## Horizontal fit loop: invariants -/

/-- Along a run of the search loop that reaches `break`, the font size
and both scale factors stay strictly positive and the font size never
decreases. -/
theorem hFitLoop_pos_le (fh : ℚ) (chars : List CharMetrics) (w h T jW jH : ℚ) :
    ∀ (fuel : ℕ) (fs sx sy fsr sxr syr : ℚ),
      hFitLoop fh chars w h T jW jH fuel fs sx sy = some (some (fsr, sxr, syr)) →
      0 < fs → 0 < sx → 0 < sy →
      (0 < fsr ∧ 0 < sxr ∧ 0 < syr) ∧ fs ≤ fsr := by
  intro fuel
  induction fuel with
  | zero =>
      intro fs sx sy fsr sxr syr hrun _ _ _
      exact absurd hrun (by simp [hFitLoop])
  | succ n ih =>
      intro fs sx sy fsr sxr syr hrun hfs hsx hsy
      simp only [hFitLoop] at hrun
      split_ifs at hrun with h1 h2 h3 h4 h5
      · simp at hrun
      · obtain ⟨hpos, hle⟩ := ih _ _ _ _ _ _ hrun (by positivity) hsx hsy
        exact ⟨hpos, le_trans (by nlinarith) hle⟩
      · simp only [Option.some.injEq, Prod.mk.injEq] at hrun
        obtain ⟨ha, hb, hc⟩ := hrun
        subst ha; subst hb; subst hc
        exact ⟨⟨hfs, hsx, hsy⟩, le_refl _⟩
      · exact (ih _ _ _ _ _ _ hrun hfs (by positivity) hsy).imp id id
      · exact (ih _ _ _ _ _ _ hrun hfs hsx (by positivity)).imp id id
      · simp only [Option.some.injEq, Prod.mk.injEq] at hrun
        obtain ⟨ha, hb, hc⟩ := hrun
        subst ha; subst hb; subst hc
        exact ⟨⟨hfs, hsx, hsy⟩, le_refl _⟩

/-- Once the isotropic-growth test fails, the loop never grows the font
size again: scale growth keeps the failed side saturated, so a run that
reaches `break` returns the entry font size. -/
theorem hFitLoop_fs_frozen (fh : ℚ) (chars : List CharMetrics) (w h T jW jH : ℚ) :
    ∀ (fuel : ℕ) (fs sx sy fsr sxr syr : ℚ),
      hFitLoop fh chars w h T jW jH fuel fs sx sy = some (some (fsr, sxr, syr)) →
      ¬((pdf_get_h_text_width_and_height fh chars fs).1 * sx < w * (9 / 10) ∧
        (pdf_get_h_text_width_and_height fh chars fs).2 * sy < h * (9 / 10)) →
      fsr = fs := by
  intro fuel
  induction fuel with
  | zero =>
      intro fs sx sy fsr sxr syr hrun _
      exact absurd hrun (by simp [hFitLoop])
  | succ n ih =>
      intro fs sx sy fsr sxr syr hrun hnb
      simp only [hFitLoop] at hrun
      split_ifs at hrun with h1 h2 h3 h4
      · simp at hrun
      · simp only [Option.some.injEq, Prod.mk.injEq] at hrun
        exact hrun.1.symm
      · exact ih _ _ _ _ _ _ hrun fun hc => hnb ⟨h3, hc.2⟩
      · exact ih _ _ _ _ _ _ hrun fun hc => h3 hc.1
      · simp only [Option.some.injEq, Prod.mk.injEq] at hrun
        exact hrun.1.symm

/-- Coupled monotonicity: the loop started from the same state on a
wider/taller target box never returns a smaller font size. -/
theorem hFitLoop_fs_mono (fh : ℚ) (chars : List CharMetrics) (T jW jH w h w' h' : ℚ)
    (hw : w ≤ w') (hh : h ≤ h') :
    ∀ (fuel1 fuel2 : ℕ) (fs fsr1 sxr1 syr1 fsr2 sxr2 syr2 : ℚ),
      hFitLoop fh chars w h T jW jH fuel1 fs 1 1 = some (some (fsr1, sxr1, syr1)) →
      hFitLoop fh chars w' h' T jW jH fuel2 fs 1 1 = some (some (fsr2, sxr2, syr2)) →
      0 < fs → fsr1 ≤ fsr2 := by
  intro fuel1
  induction fuel1 with
  | zero =>
      intro fuel2 fs fsr1 sxr1 syr1 fsr2 sxr2 syr2 h1run _ _
      exact absurd h1run (by simp [hFitLoop])
  | succ n ih =>
      intro fuel2 fs fsr1 sxr1 syr1 fsr2 sxr2 syr2 h1run h2run hfs
      cases fuel2 with
      | zero => exact absurd h2run (by simp [hFitLoop])
      | succ n2 =>
          by_cases hfail : (10000 : ℚ) ≤ fs ∨ jW = 0 ∨ jH = 0
          · exfalso
            simp only [hFitLoop, if_pos hfail] at h1run
            simp at h1run
          · by_cases hAB : (pdf_get_h_text_width_and_height fh chars fs).1 * 1 < w * (9 / 10) ∧
                (pdf_get_h_text_width_and_height fh chars fs).2 * 1 < h * (9 / 10)
            · have hAB' : (pdf_get_h_text_width_and_height fh chars fs).1 * 1 < w' * (9 / 10) ∧
                  (pdf_get_h_text_width_and_height fh chars fs).2 * 1 < h' * (9 / 10) := by
                constructor
                · exact lt_of_lt_of_le hAB.1 (by nlinarith)
                · exact lt_of_lt_of_le hAB.2 (by nlinarith)
              simp only [hFitLoop, if_neg hfail, if_pos hAB] at h1run
              simp only [hFitLoop, if_neg hfail, if_pos hAB'] at h2run
              exact ih n2 (fs * (11 / 10)) _ _ _ _ _ _ h1run h2run (by positivity)
            · have h1fs : fsr1 = fs :=
                hFitLoop_fs_frozen fh chars w h T jW jH _ _ _ _ _ _ _ h1run hAB
              have h2ge : fs ≤ fsr2 :=
                (hFitLoop_pos_le fh chars w' h' T jW jH _ _ _ _ _ _ _ h2run hfs
                  one_pos one_pos).2
              rw [h1fs]
              exact h2ge

/-! ## Horizontal aspect correction: ratio cap and positivity -/

/-- After the two correction `if`s, both the per-character aspect ratio
and its inverse are at most the threshold (for positive measured data and
threshold at least 1). -/
theorem hAspectCorrect_ratio_le (tw th : ℚ) (len : ℕ) (T sx sy : ℚ)
    (htw : 0 < tw) (hth : 0 < th) (hlen : 0 < len) (hsx : 0 < sx) (hsy : 0 < sy)
    (hT : 1 ≤ T) :
    tw * (hAspectCorrect tw th len T sx sy).1 / (len : ℚ) /
        (th * (hAspectCorrect tw th len T sx sy).2) ≤ T ∧
    th * (hAspectCorrect tw th len T sx sy).2 /
        (tw * (hAspectCorrect tw th len T sx sy).1 / (len : ℚ)) ≤ T := by
  have hT0 : (0 : ℚ) < T := lt_of_lt_of_le one_pos hT
  have hLq : (0 : ℚ) < (len : ℚ) := by exact_mod_cast hlen
  have hpos : (0 : ℚ) < th * sy := by positivity
  simp only [hAspectCorrect]
  by_cases h1 : T < tw * sx / (len : ℚ) / (th * sy)
  · have hkey : tw * (T * (th * sy) * (len : ℚ) / tw) / (len : ℚ) = T * (th * sy) := by
      field_simp
    have hfrac : th * sy / (T * (th * sy)) = 1 / T := by
      rw [mul_comm T (th * sy), div_mul_eq_div_div, div_self (ne_of_gt hpos)]
    have h2 : ¬ T < th * sy / (tw * (T * (th * sy) * (len : ℚ) / tw) / (len : ℚ)) := by
      rw [hkey, hfrac]
      intro hc
      have hc' : T * T < 1 := (lt_div_iff₀ hT0).mp hc
      nlinarith
    have hcancel : T * (th * sy) / (th * sy) = T := by
      rw [mul_div_assoc, div_self (ne_of_gt hpos), mul_one]
    have hinv : 1 / T ≤ T := by
      rw [div_le_iff₀ hT0]
      nlinarith
    simp only [if_pos h1, if_neg h2]
    constructor
    · rw [hkey, hcancel]
    · rw [hkey, hfrac]
      exact hinv
  · by_cases h2 : T < th * sy / (tw * sx / (len : ℚ))
    · have hx : (0 : ℚ) < tw * sx / (len : ℚ) := by positivity
      have hkey2 : th * (T * (tw * sx / (len : ℚ)) / th) = T * (tw * sx / (len : ℚ)) := by
        field_simp
        ring
      have hcancel2 : T * (tw * sx / (len : ℚ)) / (tw * sx / (len : ℚ)) = T := by
        rw [mul_div_assoc, div_self (ne_of_gt hx), mul_one]
      have hfrac2 : tw * sx / (len : ℚ) / (T * (tw * sx / (len : ℚ))) = 1 / T := by
        rw [mul_comm T (tw * sx / (len : ℚ)), div_mul_eq_div_div, div_self (ne_of_gt hx)]
      have hinv : 1 / T ≤ T := by
        rw [div_le_iff₀ hT0]
        nlinarith
      simp only [if_neg h1, if_pos h2]
      constructor
      · rw [hkey2, hfrac2]
        exact hinv
      · rw [hkey2, hcancel2]
    · simp only [if_neg h1, if_neg h2]
      exact ⟨not_lt.mp h1, not_lt.mp h2⟩

/-- The corrected scale factors stay strictly positive. -/
theorem hAspectCorrect_pos (tw th : ℚ) (len : ℕ) (T sx sy : ℚ)
    (htw : 0 < tw) (hth : 0 < th) (hlen : 0 < len) (hsx : 0 < sx) (hsy : 0 < sy)
    (hT : 1 ≤ T) :
    0 < (hAspectCorrect tw th len T sx sy).1 ∧ 0 < (hAspectCorrect tw th len T sx sy).2 := by
  have hT0 : (0 : ℚ) < T := lt_of_lt_of_le one_pos hT
  have hLq : (0 : ℚ) < (len : ℚ) := by exact_mod_cast hlen
  simp only [hAspectCorrect]
  constructor
  · split_ifs <;> positivity
  · split_ifs <;> positivity

/-! ## Claims about the horizontal fit solver -/

/-- Claim C1: after a successful horizontal fit of a non-empty row with
threshold `T ≥ 1` and non-degenerate (positive) re-measured metrics at
the returned font size, the per-character aspect ratio
`(textWidth·scaleX/N) / (textHeight·scaleY)` and its inverse are both at
most `T`. -/
theorem C1_aspect_cap (fh : ℚ) (chars : List CharMetrics) (w h T jW jH fs sx sy : ℚ)
    (fuel : ℕ) (hT : 1 ≤ T)
    (hrun : pdf_scaling_h_text fh chars w h T jW jH fuel = some (.ok fs sx sy))
    (htw : 0 < (pdf_get_h_text_width_and_height fh chars fs).1)
    (hth : 0 < (pdf_get_h_text_width_and_height fh chars fs).2) :
    (pdf_get_h_text_width_and_height fh chars fs).1 * sx / (chars.length : ℚ) /
        ((pdf_get_h_text_width_and_height fh chars fs).2 * sy) ≤ T ∧
    (pdf_get_h_text_width_and_height fh chars fs).2 * sy /
        ((pdf_get_h_text_width_and_height fh chars fs).1 * sx / (chars.length : ℚ)) ≤ T := by
  by_cases hne : chars = []
  · exfalso
    simp [pdf_scaling_h_text, hne] at hrun
  · have hlen : 0 < chars.length := List.length_pos.mpr hne
    simp only [pdf_scaling_h_text, if_neg hne] at hrun
    cases hloop : hFitLoop fh chars w h T jW jH fuel 10 1 1 with
    | none => rw [hloop] at hrun; simp at hrun
    | some o =>
        cases o with
        | none => rw [hloop] at hrun; simp at hrun
        | some st =>
            obtain ⟨fs0, sx0, sy0⟩ := st
            rw [hloop] at hrun
            simp only [Option.some.injEq, FitOutcome.ok.injEq] at hrun
            obtain ⟨hfs, hsx, hsy⟩ := hrun
            subst hfs
            subst hsx
            subst hsy
            obtain ⟨⟨hfs0, hsx0, hsy0⟩, _⟩ :=
              hFitLoop_pos_le fh chars w h T jW jH fuel 10 1 1 fs0 sx0 sy0 hloop
                (by norm_num) one_pos one_pos
            exact hAspectCorrect_ratio_le _ _ _ _ _ _ htw hth hlen hsx0 hsy0 hT

/-- Witness for C1: one unit-metrics character in an 11×11 box with
threshold 1.5 fits at font size 10 with unit scales, and both aspect
ratios are 1 ≤ 1.5. -/
theorem C1_aspect_cap_witness :
    pdf_scaling_h_text 1 [⟨1, 1, 1⟩] 11 11 (3 / 2) 1 1 5 = some (.ok 10 1 1) ∧
    (pdf_get_h_text_width_and_height 1 [⟨1, 1, 1⟩] 10).1 * 1 / (([(⟨1, 1, 1⟩ : CharMetrics)].length : ℕ) : ℚ) /
        ((pdf_get_h_text_width_and_height 1 [⟨1, 1, 1⟩] 10).2 * 1) ≤ 3 / 2 ∧
    (pdf_get_h_text_width_and_height 1 [⟨1, 1, 1⟩] 10).2 * 1 /
        ((pdf_get_h_text_width_and_height 1 [⟨1, 1, 1⟩] 10).1 * 1 / (([(⟨1, 1, 1⟩ : CharMetrics)].length : ℕ) : ℚ)) ≤ 3 / 2 := by
  have hrun : pdf_scaling_h_text 1 [⟨1, 1, 1⟩] 11 11 (3 / 2) 1 1 5 = some (.ok 10 1 1) := by
    norm_num [pdf_scaling_h_text, hFitLoop, pdf_get_h_text_width_and_height, hMeasureAux,
      hAspectCorrect]
  have hm : pdf_get_h_text_width_and_height 1 [⟨1, 1, 1⟩] 10 = (10, 10) := by
    norm_num [pdf_get_h_text_width_and_height, hMeasureAux]
  refine ⟨hrun, ?_⟩
  have := C1_aspect_cap 1 [⟨1, 1, 1⟩] 11 11 (3 / 2) 1 1 10 1 1 5 (by norm_num) hrun
    (by rw [hm]; norm_num) (by rw [hm]; norm_num)
  simpa using this

/-- Claim C2: for a non-empty row with strictly positive glyph metrics
and threshold `T ≥ 1`, a successful horizontal solve returns
`fontSize ≥ 10` and strictly positive `scaleX`, `scaleY`; and a second
successful solve of the same row against a target box at least as wide
and at least as tall returns a font size at least as large. -/
theorem C2_fit_monotone (fh : ℚ) (chars : List CharMetrics)
    (w h w' h' T jW jH : ℚ) (fuel fuel' : ℕ) (fs1 sx1 sy1 fs2 sx2 sy2 : ℚ)
    (hT : 1 ≤ T)
    (hadv : ∀ c ∈ chars, 0 < c.xAdvance)
    (hht : ∀ c ∈ chars, 0 < c.height)
    (hw : w ≤ w') (hh : h ≤ h')
    (h1 : pdf_scaling_h_text fh chars w h T jW jH fuel = some (.ok fs1 sx1 sy1))
    (h2 : pdf_scaling_h_text fh chars w' h' T jW jH fuel' = some (.ok fs2 sx2 sy2)) :
    (10 ≤ fs1 ∧ 0 < sx1 ∧ 0 < sy1) ∧ fs1 ≤ fs2 := by
  by_cases hne : chars = []
  · exfalso
    simp [pdf_scaling_h_text, hne] at h1
  · have hlen : 0 < chars.length := List.length_pos.mpr hne
    simp only [pdf_scaling_h_text, if_neg hne] at h1 h2
    cases hloop1 : hFitLoop fh chars w h T jW jH fuel 10 1 1 with
    | none => rw [hloop1] at h1; simp at h1
    | some o1 =>
        cases o1 with
        | none => rw [hloop1] at h1; simp at h1
        | some st1 =>
            obtain ⟨fsA, sxA, syA⟩ := st1
            rw [hloop1] at h1
            simp only [Option.some.injEq, FitOutcome.ok.injEq] at h1
            obtain ⟨hfsA, hsx1, hsy1⟩ := h1
            subst hfsA
            subst hsx1
            subst hsy1
            cases hloop2 : hFitLoop fh chars w' h' T jW jH fuel' 10 1 1 with
            | none => rw [hloop2] at h2; simp at h2
            | some o2 =>
                cases o2 with
                | none => rw [hloop2] at h2; simp at h2
                | some st2 =>
                    obtain ⟨fsB, sxB, syB⟩ := st2
                    rw [hloop2] at h2
                    simp only [Option.some.injEq, FitOutcome.ok.injEq] at h2
                    obtain ⟨hfsB, hsx2, hsy2⟩ := h2
                    subst hfsB
                    obtain ⟨⟨hfsA0, hsxA0, hsyA0⟩, hfsA10⟩ :=
                      hFitLoop_pos_le fh chars w h T jW jH fuel 10 1 1 fsA sxA syA
                        hloop1 (by norm_num) one_pos one_pos
                    have htwA : 0 < (pdf_get_h_text_width_and_height fh chars fsA).1 :=
                      h_measure_width_pos fh fsA chars hfsA0 hne hadv
                    have hthA : 0 < (pdf_get_h_text_width_and_height fh chars fsA).2 :=
                      h_measure_height_pos fh fsA chars hfsA0 hne hht
                    have hmono : fsA ≤ fsB :=
                      hFitLoop_fs_mono fh chars T jW jH w h w' h' hw hh fuel fuel'
                        10 fsA sxA syA fsB sxB syB hloop1 hloop2 (by norm_num)
                    have hpos :=
                      hAspectCorrect_pos _ _ chars.length T sxA syA htwA hthA hlen
                        hsxA0 hsyA0 hT
                    exact ⟨⟨hfsA10, hpos.1, hpos.2⟩, hmono⟩

/-- Witness for C2: the same unit-metrics row solved in an 11×11 box and
a 12×12 box; the first returns font size 10, the second 11. -/
theorem C2_fit_monotone_witness :
    ((10 : ℚ) ≤ 10 ∧ (0 : ℚ) < 1 ∧ (0 : ℚ) < 1) ∧ (10 : ℚ) ≤ 11 := by
  have h1 : pdf_scaling_h_text 1 [⟨1, 1, 1⟩] 11 11 (3 / 2) 1 1 5 = some (.ok 10 1 1) := by
    norm_num [pdf_scaling_h_text, hFitLoop, pdf_get_h_text_width_and_height, hMeasureAux,
      hAspectCorrect]
  have h2 : pdf_scaling_h_text 1 [⟨1, 1, 1⟩] 12 12 (3 / 2) 1 1 6 = some (.ok 11 1 1) := by
    norm_num [pdf_scaling_h_text, hFitLoop, pdf_get_h_text_width_and_height, hMeasureAux,
      hAspectCorrect]
  exact C2_fit_monotone 1 [⟨1, 1, 1⟩] 11 11 12 12 (3 / 2) 1 1 5 6 10 1 1 11 1 1
    (by norm_num) (by intro c hc; simp at hc; subst hc; norm_num)
    (by intro c hc; simp at hc; subst hc; norm_num)
    (by norm_num) (by norm_num) h1 h2

/-- Claim C3 (code bug): the degenerate-metrics failure test of
`pdf_scaling_h_text` reads a `cairo_text_extents_t` that the function
never initialises. With the same healthy input — a non-empty row of
strictly positive metrics, an 11×11 box, threshold 1.5, guard untouched —
the solver fails if the indeterminate bytes happen to be zero and
succeeds otherwise: the outcome is decided by uninitialised memory, not
by the row-empty / degenerate-measured-metrics / guard conditions the
claim describes. -/
theorem C3_uninit_extents_check :
    pdf_scaling_h_text 1 [⟨1, 1, 1⟩] 11 11 (3 / 2) 0 0 5 = some .fail ∧
    pdf_scaling_h_text 1 [⟨1, 1, 1⟩] 11 11 (3 / 2) 1 1 5 = some (.ok 10 1 1) := by
  constructor
  · norm_num [pdf_scaling_h_text, hFitLoop]
  · norm_num [pdf_scaling_h_text, hFitLoop, pdf_get_h_text_width_and_height, hMeasureAux,
      hAspectCorrect]

/-! ## Vertical aspect correction and the horizontal one compared -/

/-- Claim C5: the vertical aspect correction is a single `if / else-if`:
on every input at most one of the two scale factors changes — if `scaleX`
is assigned then `scaleY` keeps its input value, and vice versa. -/
theorem C5_v_single_axis_shrink (tw th : ℚ) (len : ℕ) (T sx sy : ℚ) :
    (vAspectCorrect tw th len T sx sy).1 = sx ∨ (vAspectCorrect tw th len T sx sy).2 = sy := by
  unfold vAspectCorrect
  split_ifs
  · exact Or.inr rfl
  · exact Or.inl rfl
  · exact Or.inl rfl

/-- Core fact behind C6: with threshold at least 1 the two horizontal
correction `if`s can never both fire, because the second condition is
evaluated with the `scale_x` the first assignment just capped, which
drives the inverse ratio down to `1/T ≤ T`. -/
theorem not_hBothShrink (tw th : ℚ) (len : ℕ) (T sx sy : ℚ) (hT : 1 ≤ T) :
    ¬ hBothShrink tw th len T sx sy := by
  rintro ⟨hc1, hc2⟩
  have hT0 : (0 : ℚ) < T := lt_of_lt_of_le one_pos hT
  by_cases hb : th * sy = 0
  · rw [hb, div_zero] at hc1
    linarith
  by_cases htw : tw = 0
  · rw [htw] at hc2
    rw [zero_mul, zero_div, div_zero] at hc2
    linarith
  by_cases hL : ((len : ℕ) : ℚ) = 0
  · rw [hL, div_zero, div_zero] at hc2
    linarith
  have hkey : tw * (T * (th * sy) * (len : ℚ) / tw) / (len : ℚ) = T * (th * sy) := by
    field_simp
  rw [hkey, mul_comm T (th * sy), div_mul_eq_div_div, div_self hb] at hc2
  have hc2' : T * T < 1 := (lt_div_iff₀ hT0).mp hc2
  nlinarith

/-- Claim C6, refuted: no input at all — whatever the measured extents,
scales and character count — makes both horizontal aspect-correction
checks fire in one solve when the threshold is at least 1. -/
theorem C6_both_shrink_counterexample :
    ¬ ∃ (tw th sx sy T : ℚ) (len : ℕ), 1 ≤ T ∧ hBothShrink tw th len T sx sy := by
  rintro ⟨tw, th, sx, sy, T, len, hT, hboth⟩
  exact not_hBothShrink tw th len T sx sy hT hboth

/-- Claim C6 as amended: the horizontal correction is written as two
separate `if`s, but the second reads the already-updated `scale_x`, so
for threshold `T ≥ 1` at most one of the two scale factors is assigned in
one solve — exactly as in the vertical solver, the other keeps its input
value. -/
theorem C6_amended_at_most_one_shrink (tw th : ℚ) (len : ℕ) (T sx sy : ℚ) (hT : 1 ≤ T) :
    (hAspectCorrect tw th len T sx sy).1 = sx ∨ (hAspectCorrect tw th len T sx sy).2 = sy := by
  simp only [hAspectCorrect]
  by_cases h1 : T < tw * sx / (len : ℚ) / (th * sy)
  · by_cases h2 : T < th * sy / (tw * (T * (th * sy) * (len : ℚ) / tw) / (len : ℚ))
    · exact absurd ⟨h1, h2⟩ (not_hBothShrink tw th len T sx sy hT)
    · simp [if_pos h1, if_neg h2]
  · simp [if_neg h1]

/-- Witness for the amended C6 at a concrete input. -/
theorem C6_amended_witness :
    (1 : ℚ) ≤ 1 ∧
    ((hAspectCorrect 1 1 1 1 1 1).1 = 1 ∨ (hAspectCorrect 1 1 1 1 1 1).2 = 1) :=
  ⟨le_refl 1, C6_amended_at_most_one_shrink 1 1 1 1 1 1 (le_refl 1)⟩

/-! ## The vertical gap-adjustment loop -/

/-- For the concrete diverging column, every state with a positive
`scale_y` re-enters the shrink loop: the gap `(3 - 10·scale_y)/2` is
below `3/2`, a full `1/2` under the floor `fontSize/5 = 2`. -/
theorem vGapLoop_never_exits :
    ∀ (fuel : ℕ) (sx sy : ℚ), 0 < sy →
      vGapLoop [⟨.other, 1, 1, 1⟩] 3 10 fuel sx sy = none := by
  intro fuel
  induction fuel with
  | zero => intro sx sy _; rfl
  | succ n ih =>
      intro sx sy hsy
      have hm : (pdf_get_v_text_width_and_height [⟨.other, 1, 1, 1⟩] 10).2 = 10 := by
        norm_num [pdf_get_v_text_width_and_height, vMeasureAux, vMeasureStep]
      have hcond : (3 - (pdf_get_v_text_width_and_height [⟨.other, 1, 1, 1⟩] 10).2 * sy) /
          (([(⟨.other, 1, 1, 1⟩ : VChar)].length : ℚ) + 1) < 10 / 5 := by
        rw [hm]
        simp only [List.length_singleton, Nat.cast_one]
        rw [div_lt_iff₀ (by norm_num : (0 : ℚ) < (1 : ℚ) + 1)]
        nlinarith
      simp only [vGapLoop, if_pos hcond]
      exact ih _ _ (by positivity)

/-- Claim C4 (code bug): a one-character column with unit metrics in a
10-wide, 3-tall band at threshold 1 passes the vertical fit solver
(font size 10, unit scales), yet the post-fit gap-adjustment loop never
terminates: the blank gap `(3 - 10·0.95^k)/2` stays below `3/2` for
every `k`, half a unit under the floor `fontSize/5 = 2`, and the `while`
loop has no other exit. The half-unit slack makes the conclusion carry
over to the source's double arithmetic: the computed gap never exceeds
`3/2` there either — even after `text_height` underflows to `+0.0` the
gap is exactly `1.5 < 2.0` — so the compiled loop also never exits. -/
theorem C4_gap_loop_divergence :
    pdf_scaling_v_text [⟨.other, 1, 1, 1⟩] 10 3 1 5 = some (.ok 10 1 1) ∧
    vGapDiverges [⟨.other, 1, 1, 1⟩] 3 10 1 1 := by
  constructor
  · norm_num [pdf_scaling_v_text, vFitLoop, pdf_get_v_text_width_and_height, vMeasureAux,
      vMeasureStep, vAspectCorrect]
  · exact fun fuel => vGapLoop_never_exits fuel 1 1 one_pos

end PdfPlaca
